/-
Verification of the struvedb collection layer.

Shallow embedding of the repository's collection facade (`src/collections/collection.rs`),
the single-file fixed-width backend (`src/collections/file_based.rs`) and the directory
backend (`src/collections/dir_based.rs`).

Modelling conventions:
* `Uuid` primary keys are modelled as `Nat`.
* Serialized JSON is modelled as a list of bytes (`List Nat`); serde's
  `to_string`/`from_str` are abstracted by the caller-supplied `serialize`/`deserialize`
  fields of `DocSpec` (the `Document` trait plus the serde bounds).
* `IndexMap<Uuid, T>` is modelled as an insertion-ordered association list.
* The backing file is modelled as its byte contents; `FileExt::write_at` is a
  positional write that zero-fills any gap, `set_len(0)` truncates.
* I/O fallibility is modelled by an `FsEnv` record saying whether truncations,
  positional writes, directory writes and directory removals succeed.
* Rust methods taking `&mut self` that can fail are modelled as functions returning
  `Collection T × Except DbError Unit`: the returned collection reflects every mutation
  performed before an error, exactly as the `&mut self` receiver does.
* Functions that can panic (`unwrap` on a fallible value in the source) return `Option`;
  `none` models the abort.
-/
import Mathlib

namespace Struvedb

set_option maxRecDepth 8000

/-- Serialized bytes (UTF-8). -/
abbrev Bytes := List Nat

/-- The `Document` trait (`src/document.rs`) together with the serde bounds the
collection requires: a primary key, the conflict check (`intersects`, `true` models
`Ok(())`), JSON (de)serialization of the document, and the serde JSON encoding of
the `Uuid` key (`serializeKey`; for a real `Uuid` a 38-byte quoted hyphenated
string, infallible). -/
structure DocSpec (T : Type) where
  pk : T → Nat
  intersects : T → T → Bool
  serialize : T → Option Bytes
  deserialize : Bytes → Option T
  serializeKey : Nat → Bytes

/-- `IndexMap<Uuid, T>`: an insertion-ordered association list from key to document. -/
abbrev Index (T : Type) := List (Nat × T)

/-- `IndexMap::contains_key`. -/
def containsKey {T : Type} (m : Index T) (k : Nat) : Bool :=
  m.any (fun e => e.1 == k)

/-- `IndexMap::get_index_of`: the slot position of a key. -/
def getIndexOf {T : Type} : Index T → Nat → Option Nat
  | [], _ => none
  | e :: rest, k =>
    if e.1 == k then some 0 else (getIndexOf rest k).map (fun i => i + 1)

/-- `IndexMap::get`: the value stored under a key. -/
def getVal {T : Type} (m : Index T) (k : Nat) : Option T :=
  (m.find? (fun e => e.1 == k)).map (fun e => e.2)

/-- `IndexMap::insert`: replace the value in place when the key is present
(keeping its slot position), otherwise append at the end. -/
def indexInsert {T : Type} : Index T → Nat → T → Index T
  | [], k, v => [(k, v)]
  | e :: rest, k, v =>
    if e.1 == k then (k, v) :: rest else e :: indexInsert rest k v

/-- `IndexMap::shift_remove`: remove the entry holding the key, shifting every
later entry down by one slot. -/
def eraseKey {T : Type} (m : Index T) (k : Nat) : Index T :=
  m.eraseP (fun e => e.1 == k)

/-- A UTF-8 continuation byte (`10xxxxxx`). -/
def isContinuationByte (b : Nat) : Bool :=
  128 ≤ b && b < 192

/-- The number of characters of a UTF-8 byte string: every byte that is not a
continuation byte starts a character.  This is what Rust's `Formatter::pad`
counts when applying a `{:width$}` format to a `String`. -/
def charCount (s : Bytes) : Nat :=
  (s.filter (fun b => !isContinuationByte b)).length

/-- `format!("{:width$}\n", json)`: the serialized document, right-padded with
spaces up to `width` CHARACTERS (Rust pads by char count, not bytes), followed
by a newline. -/
def paddedSlot (json : Bytes) (width : Nat) : Bytes :=
  json ++ List.replicate (width - charCount json) 32 ++ [10]

/-- `FileExt::write_at`: positional write at `offset`, zero-filling any gap if the
file is shorter than `offset`, preserving bytes before the write and after its end. -/
def writeAt (file data : Bytes) (offset : Nat) : Bytes :=
  let padded := file ++ List.replicate (offset - file.length) 0
  padded.take offset ++ data ++ padded.drop (offset + data.length)

/-- `CollectionBackend` (`src/collections/collection.rs`). -/
inductive Backend
  | inMemory
  | dir
  | file
deriving DecidableEq

/-- The error strings the collection returns, as an enumeration. -/
inductive DbError
  | duplicateKey        -- "Primary key used"
  | intersection        -- "Intersection occurred"
  | writeError          -- "Error writing to DB"
  | removeError         -- "Error removing from DB"
  | keyNotFound         -- "Key does not exist"
  | serializationError  -- "Error turning struct into JSON"
  | resizeFailed        -- "Failed to resize DB"
  | recordTooLarge      -- "Struct is to large"
  | writeFailed         -- "Failed to write"
  | truncFailed         -- "Failed to clear contents of DB."
  | rowIdxNotFound      -- "Row idx cannot be found"
  | dirWriteFailed      -- "Error writing to disk."
deriving DecidableEq

/-- `Collection<T>`: the in-memory index, the backend choice, the slot sizing
state and the backing storage (file bytes for the single-file backend, a
key-to-bytes map for the directory backend). -/
structure Collection (T : Type) where
  documents : Index T
  backend : Backend
  maxByteLength : Nat
  byteLengthIncrement : Nat
  file : Bytes
  dir : Index Bytes
deriving DecidableEq

instance : DecidableEq (Except DbError Unit) := fun a b =>
  match a, b with
  | .ok x, .ok y =>
    if h : x = y then .isTrue (congrArg Except.ok h)
    else .isFalse (fun hc => h (Except.ok.inj hc))
  | .error x, .error y =>
    if h : x = y then .isTrue (congrArg Except.error h)
    else .isFalse (fun hc => h (Except.error.inj hc))
  | .ok _, .error _ => .isFalse (fun hc => Except.noConfusion hc)
  | .error _, .ok _ => .isFalse (fun hc => Except.noConfusion hc)

/-- The collection a fresh `Collection::new` starts from before loading:
empty index, `max_byte_length = 128`, `byte_length_increment = 64`. -/
def emptyCollection {T : Type} (b : Backend) : Collection T :=
  { documents := []
    backend := b
    maxByteLength := 128
    byteLengthIncrement := 64
    file := []
    dir := [] }

/-- Which I/O calls succeed during one operation. -/
structure FsEnv where
  truncOk : Bool
  writeOk : Bool
  dirWriteOk : Bool
  dirRemoveOk : Bool
deriving DecidableEq

/-- The environment in which every I/O call succeeds. -/
def allOk : FsEnv :=
  { truncOk := true, writeOk := true, dirWriteOk := true, dirRemoveOk := true }

/-- What `serde_json::to_string(&doc)` produces inside `resize_db` and
`rewrite_file`: there `self.documents.iter()` yields the `(&Uuid, &T)` ENTRY,
so the loop variable `doc` in `for (idx, doc) in self.documents.iter().enumerate()`
is the key–document pair, not the document (unlike the insert/update writers,
which serialize `&T`).  serde encodes a tuple as a two-element JSON array with
no spaces: `[<key json>,<document json>]` — 91/44/93 are `[`/`,`/`]`. -/
def serializeEntry {T : Type} (ds : DocSpec T) (e : Nat × T) : Option Bytes :=
  match ds.serialize e.2 with
  | none => none
  | some json => some ([91] ++ ds.serializeKey e.1 ++ [44] ++ json ++ [93])

/-- The loop shared by `resize_db` and `rewrite_file`: serialize each index
ENTRY (the `(Uuid, T)` pair — see `serializeEntry`) in slot order, fail with
"Struct is to large" when the entry's JSON exceeds `max_byte_length`, and
write its padded slot at `idx * (max_byte_length + 1)`.  Returns the file
contents reached so far together with the loop's outcome. -/
def rewriteLoop {T : Type} (ds : DocSpec T) (env : FsEnv) (w : Nat) :
    Index T → Nat → Bytes → Bytes × Except DbError Unit
  | [], _, file => (file, .ok ())
  | e :: rest, idx, file =>
    match serializeEntry ds e with
    | none => (file, .error .serializationError)
    | some json =>
      if w < json.length then (file, .error .recordTooLarge)
      else if env.writeOk then
        rewriteLoop ds env w rest (idx + 1) (writeAt file (paddedSlot json w) (idx * (w + 1)))
      else (file, .error .writeFailed)

/-- `rewrite_file` (`src/collections/file_based.rs`): truncate to zero length,
then write every index ENTRY back in slot order at the current slot size
(the loop serializes the `(Uuid, T)` pair — see `serializeEntry`). -/
def rewriteFile {T : Type} (ds : DocSpec T) (env : FsEnv) (c : Collection T) :
    Bytes × Except DbError Unit :=
  if env.truncOk then rewriteLoop ds env c.maxByteLength c.documents 0 []
  else (c.file, .error .truncFailed)

/-- `resize_db` (`src/collections/file_based.rs`): its body is verbatim the same
as `rewrite_file`'s (including the pair serialization). -/
def resizeDb {T : Type} (ds : DocSpec T) (env : FsEnv) (c : Collection T) :
    Bytes × Except DbError Unit :=
  rewriteFile ds env c

/-- The `self.max_byte_length = self.byte_length_increment * div` step with
`div = (byte_length / self.byte_length_increment) + 1` (integer division). -/
def growSlot {T : Type} (c : Collection T) (byteLength : Nat) : Collection T :=
  { c with maxByteLength :=
      c.byteLengthIncrement * (byteLength / c.byteLengthIncrement + 1) }

/-- `write_new_document_to_file`: serialize; if the byte length exceeds
`max_byte_length`, grow it (`growSlot`) and run `resize_db`; then write the
padded slot at the append offset `documents.len() * (max_byte_length + 1)`.
The index is never touched here.  (The source binds the resized collection and
the resize result to locals; being pure, the model repeats the expressions.) -/
def writeNewDocumentToFile {T : Type} (ds : DocSpec T) (env : FsEnv)
    (c : Collection T) (doc : T) : Collection T × Except DbError Unit :=
  match ds.serialize doc with
  | none => (c, .error .serializationError)
  | some json =>
    if c.maxByteLength < json.length then
      match (resizeDb ds env (growSlot c json.length)).2 with
      | .error _ =>
        ({ growSlot c json.length with file := (resizeDb ds env (growSlot c json.length)).1 },
          .error .resizeFailed)
      | .ok _ =>
        if env.writeOk then
          ({ growSlot c json.length with
              file := writeAt (resizeDb ds env (growSlot c json.length)).1
                (paddedSlot json (growSlot c json.length).maxByteLength)
                (c.documents.length * ((growSlot c json.length).maxByteLength + 1)) }, .ok ())
        else
          ({ growSlot c json.length with file := (resizeDb ds env (growSlot c json.length)).1 },
            .error .writeFailed)
    else
      if env.writeOk then
        ({ c with
            file := writeAt c.file (paddedSlot json c.maxByteLength)
                (c.documents.length * (c.maxByteLength + 1)) }, .ok ())
      else (c, .error .writeFailed)

/-- `write_updated_document_to_file`: same serialize/grow/resize steps, but the
destination slot is the key's current index position; an absent key fails with
"Row idx cannot be found" (after any resize already happened). -/
def writeUpdatedDocumentToFile {T : Type} (ds : DocSpec T) (env : FsEnv)
    (c : Collection T) (doc : T) : Collection T × Except DbError Unit :=
  match ds.serialize doc with
  | none => (c, .error .serializationError)
  | some json =>
    if c.maxByteLength < json.length then
      match (resizeDb ds env (growSlot c json.length)).2 with
      | .error _ =>
        ({ growSlot c json.length with file := (resizeDb ds env (growSlot c json.length)).1 },
          .error .resizeFailed)
      | .ok _ =>
        match getIndexOf c.documents (ds.pk doc) with
        | none =>
          ({ growSlot c json.length with file := (resizeDb ds env (growSlot c json.length)).1 },
            .error .rowIdxNotFound)
        | some idx =>
          if env.writeOk then
            ({ growSlot c json.length with
                file := writeAt (resizeDb ds env (growSlot c json.length)).1
                  (paddedSlot json (growSlot c json.length).maxByteLength)
                  (idx * ((growSlot c json.length).maxByteLength + 1)) }, .ok ())
          else
            ({ growSlot c json.length with file := (resizeDb ds env (growSlot c json.length)).1 },
              .error .writeFailed)
    else
      match getIndexOf c.documents (ds.pk doc) with
      | none => (c, .error .rowIdxNotFound)
      | some idx =>
        if env.writeOk then
          ({ c with
              file := writeAt c.file (paddedSlot json c.maxByteLength)
                  (idx * (c.maxByteLength + 1)) }, .ok ())
        else (c, .error .writeFailed)

/-- `write_to_dir` (`src/collections/dir_based.rs`): write `<pk>.json`,
overwriting any previous contents.  NOTE: the source `unwrap()`s the
serialization (a failure aborts); the model records that branch as an error
value no theorem relies on. -/
def writeToDir {T : Type} (ds : DocSpec T) (env : FsEnv)
    (c : Collection T) (doc : T) : Collection T × Except DbError Unit :=
  match ds.serialize doc with
  | none => (c, .error .serializationError)
  | some json =>
    if env.dirWriteOk then
      ({ c with dir := indexInsert c.dir (ds.pk doc) json }, .ok ())
    else (c, .error .dirWriteFailed)

/-- `remove_from_dir`: delete `<pk>.json`. -/
def removeFromDir {T : Type} (env : FsEnv) (c : Collection T) (pk : Nat) :
    Collection T × Except DbError Unit :=
  if env.dirRemoveOk then
    ({ c with dir := eraseKey c.dir pk }, .ok ())
  else (c, .error .removeError)

/-- `Collection::insert`: duplicate-key check, then the conflict scan
(`new_doc.intersects(doc)` for every stored document with a different
`primary_key()`), then the backend write, and only then the index insert. -/
def insert {T : Type} (ds : DocSpec T) (env : FsEnv) (c : Collection T) (newDoc : T) :
    Collection T × Except DbError Unit :=
  if containsKey c.documents (ds.pk newDoc) then (c, .error .duplicateKey)
  else if c.documents.any
      (fun e => (ds.pk newDoc != ds.pk e.2) && !ds.intersects newDoc e.2) then
    (c, .error .intersection)
  else
    match c.backend with
    | .dir =>
      match (writeToDir ds env c newDoc).2 with
      | .error _ => ((writeToDir ds env c newDoc).1, .error .writeError)
      | .ok _ =>
        ({ (writeToDir ds env c newDoc).1 with
            documents := indexInsert (writeToDir ds env c newDoc).1.documents
              (ds.pk newDoc) newDoc }, .ok ())
    | .file =>
      match (writeNewDocumentToFile ds env c newDoc).2 with
      | .error _ => ((writeNewDocumentToFile ds env c newDoc).1, .error .writeError)
      | .ok _ =>
        ({ (writeNewDocumentToFile ds env c newDoc).1 with
            documents := indexInsert (writeNewDocumentToFile ds env c newDoc).1.documents
              (ds.pk newDoc) newDoc }, .ok ())
    | .inMemory =>
      ({ c with documents := indexInsert c.documents (ds.pk newDoc) newDoc }, .ok ())

/-- `Collection::update`: the conflict scan skips the entry whose MAP KEY equals
the updated document's `primary_key()` (`updated_doc.primary_key() != *doc_pk`);
then the backend write, then `IndexMap::insert` (which appends when the key was
absent). -/
def update {T : Type} (ds : DocSpec T) (env : FsEnv) (c : Collection T) (updatedDoc : T) :
    Collection T × Except DbError Unit :=
  if c.documents.any
      (fun e => (ds.pk updatedDoc != e.1) && !ds.intersects updatedDoc e.2) then
    (c, .error .intersection)
  else
    match c.backend with
    | .dir =>
      match (writeToDir ds env c updatedDoc).2 with
      | .error _ => ((writeToDir ds env c updatedDoc).1, .error .writeError)
      | .ok _ =>
        ({ (writeToDir ds env c updatedDoc).1 with
            documents := indexInsert (writeToDir ds env c updatedDoc).1.documents
              (ds.pk updatedDoc) updatedDoc }, .ok ())
    | .file =>
      match (writeUpdatedDocumentToFile ds env c updatedDoc).2 with
      | .error _ => ((writeUpdatedDocumentToFile ds env c updatedDoc).1, .error .writeError)
      | .ok _ =>
        ({ (writeUpdatedDocumentToFile ds env c updatedDoc).1 with
            documents := indexInsert (writeUpdatedDocumentToFile ds env c updatedDoc).1.documents
              (ds.pk updatedDoc) updatedDoc }, .ok ())
    | .inMemory =>
      ({ c with documents := indexInsert c.documents (ds.pk updatedDoc) updatedDoc }, .ok ())

/-- `Collection::delete`: key-existence check, then `shift_remove` FROM THE INDEX
FIRST, then the backend removal (directory file delete, or a full file rewrite);
a backend failure is reported after the index entry is already gone. -/
def delete {T : Type} (ds : DocSpec T) (env : FsEnv) (c : Collection T) (pk : Nat) :
    Collection T × Except DbError Unit :=
  if !containsKey c.documents pk then (c, .error .keyNotFound)
  else
    match c.backend with
    | .dir =>
      match (removeFromDir env { c with documents := eraseKey c.documents pk } pk).2 with
      | .error _ =>
        ((removeFromDir env { c with documents := eraseKey c.documents pk } pk).1,
          .error .removeError)
      | .ok _ =>
        ((removeFromDir env { c with documents := eraseKey c.documents pk } pk).1, .ok ())
    | .file =>
      match (rewriteFile ds env { c with documents := eraseKey c.documents pk }).2 with
      | .error _ =>
        ({ c with
            documents := eraseKey c.documents pk,
            file := (rewriteFile ds env { c with documents := eraseKey c.documents pk }).1 },
          .error .writeError)
      | .ok _ =>
        ({ c with
            documents := eraseKey c.documents pk,
            file := (rewriteFile ds env { c with documents := eraseKey c.documents pk }).1 },
          .ok ())
    | .inMemory => ({ c with documents := eraseKey c.documents pk }, .ok ())

/-- `Collection::by_primary_key`. -/
def byPrimaryKey {T : Type} (c : Collection T) (pk : Nat) : Option T :=
  getVal c.documents pk

/-- Split bytes on the newline byte; the final (possibly empty) segment is kept. -/
def splitOnNl : Bytes → List Bytes
  | [] => [[]]
  | b :: rest =>
    match splitOnNl rest with
    | [] => []
    | seg :: segs => if b == 10 then [] :: seg :: segs else (b :: seg) :: segs

/-- `BufRead::lines`: split the file on newlines; a trailing newline does not
produce a final empty line, and an empty file yields no lines. -/
def splitLines (s : Bytes) : List Bytes :=
  let segs := splitOnNl s
  if segs.getLast? = some [] then segs.dropLast else segs

/-- An ASCII-whitespace byte (space, tab, line feed, carriage return). -/
def isWhitespaceByte (b : Nat) : Bool :=
  b == 32 || b == 9 || b == 10 || b == 13

/-- `str::trim` restricted to the whitespace the slot format produces. -/
def trimBytes (s : Bytes) : Bytes :=
  ((s.dropWhile isWhitespaceByte).reverse.dropWhile isWhitespaceByte).reverse

/-- Validity of a byte string as UTF-8, following the encoding rules Rust's
`String::from_utf8` enforces (continuation ranges per leading byte, no
surrogates, no overlong forms, nothing above U+10FFFF). -/
def utf8Valid : Bytes → Bool
  | [] => true
  | b :: rest =>
    if b < 128 then utf8Valid rest
    else if 194 ≤ b && b ≤ 223 then
      match rest with
      | c1 :: rest2 => isContinuationByte c1 && utf8Valid rest2
      | [] => false
    else if b == 224 then
      match rest with
      | c1 :: c2 :: rest2 =>
        (160 ≤ c1 && c1 < 192) && isContinuationByte c2 && utf8Valid rest2
      | _ => false
    else if (225 ≤ b && b ≤ 236) || (238 ≤ b && b ≤ 239) then
      match rest with
      | c1 :: c2 :: rest2 =>
        isContinuationByte c1 && isContinuationByte c2 && utf8Valid rest2
      | _ => false
    else if b == 237 then
      match rest with
      | c1 :: c2 :: rest2 =>
        (128 ≤ c1 && c1 < 160) && isContinuationByte c2 && utf8Valid rest2
      | _ => false
    else if b == 240 then
      match rest with
      | c1 :: c2 :: c3 :: rest2 =>
        (144 ≤ c1 && c1 < 192) && isContinuationByte c2 && isContinuationByte c3 &&
          utf8Valid rest2
      | _ => false
    else if 241 ≤ b && b ≤ 243 then
      match rest with
      | c1 :: c2 :: c3 :: rest2 =>
        isContinuationByte c1 && isContinuationByte c2 && isContinuationByte c3 &&
          utf8Valid rest2
      | _ => false
    else if b == 244 then
      match rest with
      | c1 :: c2 :: c3 :: rest2 =>
        (128 ≤ c1 && c1 < 144) && isContinuationByte c2 && isContinuationByte c3 &&
          utf8Valid rest2
      | _ => false
    else false

/-- The read loop of `load_structs_from_file`.  Each iteration first pulls the
next line and `unwrap()`s it — `BufRead::lines` yields `Err` on a non-UTF-8
line, and the unwrap PANICS (modelled as `none`).  A line that reads fine but
fails to deserialize breaks the loop (`if document.is_err() break`), so later
lines are never pulled and a bad-UTF-8 line beyond the break point never
panics.  (A mid-read I/O failure would panic the same way; the byte-level
model fixes the contents up front, so only the UTF-8 case arises.) -/
def loadFileLoop {T : Type} (ds : DocSpec T) : List Bytes → Index T → Option (Index T)
  | [], acc => some acc
  | l :: rest, acc =>
    if !utf8Valid l then none
    else
      match ds.deserialize (trimBytes l) with
      | none => some acc
      | some d => loadFileLoop ds rest (indexInsert acc (ds.pk d) d)

/-- `load_structs_from_file` applied to the opened file's contents; `none`
models the panic on a non-UTF-8 line. -/
def loadStructsFromFile {T : Type} (ds : DocSpec T) (contents : Bytes) :
    Option (Index T) :=
  loadFileLoop ds (splitLines contents) []

/-- The bytes of the extension string "json". -/
def jsonExt : Bytes := [106, 115, 111, 110]

/-- One result of the directory iterator in `load_structs_from_dir`: whether the
entry itself was readable, the path's `extension()`, whether opening succeeded,
and the file's contents. -/
structure DirEntry where
  readOk : Bool
  ext : Option Bytes
  openOk : Bool
  content : Bytes

/-- `load_structs_from_dir` (`src/collections/dir_based.rs`): skip unreadable
entries, PANIC (`extension().unwrap()`) on an entry without an extension, skip
non-`.json` extensions and unopenable files, and PANIC
(`serde_json::from_reader(f).unwrap()`) when a `.json` file fails to
deserialize.  `none` models the abort. -/
def loadStructsFromDir {T : Type} (ds : DocSpec T) :
    List DirEntry → Index T → Option (Index T)
  | [], acc => some acc
  | e :: rest, acc =>
    if !e.readOk then loadStructsFromDir ds rest acc
    else
      match e.ext with
      | none => none
      | some x =>
        if x ≠ jsonExt then loadStructsFromDir ds rest acc
        else if !e.openOk then loadStructsFromDir ds rest acc
        else
          match ds.deserialize e.content with
          | none => none
          | some d => loadStructsFromDir ds rest (indexInsert acc (ds.pk d) d)

/-- The on-disk starting state that `Collection::new` meets. -/
structure ConstructEnv where
  pathPresent : Bool
  openOk : Bool
  fileContents : Bytes
  readDirOk : Bool
  dirEntries : List DirEntry

/-- `Collection::new`: defaults, then the backend-specific load.  A missing path
or a failed open/read of the backing store degrades to an empty collection; a
load panic (`none` from `loadStructsFromFile` on a non-UTF-8 line, or from
`loadStructsFromDir`) aborts construction. -/
def Collection.new {T : Type} (ds : DocSpec T) (backend : Backend) (cenv : ConstructEnv) :
    Option (Collection T) :=
  let base : Collection T := emptyCollection backend
  match backend with
  | .inMemory => some base
  | .file =>
    if !cenv.pathPresent then some base
    else if !cenv.openOk then some base
    else
      match loadStructsFromFile ds cenv.fileContents with
      | none => none
      | some idx => some { base with documents := idx, file := cenv.fileContents }
  | .dir =>
    if !cenv.pathPresent then some base
    else if !cenv.readDirOk then some base
    else
      match loadStructsFromDir ds cenv.dirEntries [] with
      | none => none
      | some idx => some { base with documents := idx }

/-- The collection states reachable from a fresh empty collection by successful
`insert`/`update`/`delete` calls (under any I/O environments). -/
inductive Reachable {T : Type} (ds : DocSpec T) : Collection T → Prop
  | init (b : Backend) : Reachable ds (emptyCollection b)
  | insertStep {c : Collection T} (env : FsEnv) (d : T) :
      Reachable ds c → (insert ds env c d).2 = .ok () →
      Reachable ds (insert ds env c d).1
  | updateStep {c : Collection T} (env : FsEnv) (d : T) :
      Reachable ds c → (update ds env c d).2 = .ok () →
      Reachable ds (update ds env c d).1
  | deleteStep {c : Collection T} (env : FsEnv) (pk : Nat) :
      Reachable ds c → (delete ds env c pk).2 = .ok () →
      Reachable ds (delete ds env c pk).1

/-! ### Concrete documents for witnesses and counterexamples -/

/-- A minimal document type for concrete runs: a key and a payload value. -/
structure TestDoc where
  key : Nat
  val : Nat
deriving DecidableEq

/-- A stand-in for the serde JSON of a `Uuid` key: a quoted 36-character
string, 38 ASCII bytes in all — the length a real hyphenated `Uuid` has. -/
def testUuidJson : Nat → Bytes :=
  fun _ => [34] ++ List.replicate 36 48 ++ [34]

/-- A document spec whose serialization is `val`-many ASCII bytes (letter `A`). -/
def asciiSpec : DocSpec TestDoc :=
  { pk := fun d => d.key
    intersects := fun _ _ => true
    serialize := fun d => some (List.replicate d.val 65)
    deserialize := fun _ => none
    serializeKey := testUuidJson }

/-- A document spec serializing every document to the four UTF-8 bytes of
`"é"` (quote, 0xC3 0xA9, quote): 4 bytes but only 3 characters. -/
def multibyteSpec : DocSpec TestDoc :=
  { pk := fun d => d.key
    intersects := fun _ _ => true
    serialize := fun _ => some [34, 195, 169, 34]
    deserialize := fun _ => none
    serializeKey := testUuidJson }

/-- A NON-symmetric conflict check: `a.intersects b` succeeds iff
`a.val ≤ b.val`. -/
def nonSymSpec : DocSpec TestDoc :=
  { pk := fun d => d.key
    intersects := fun a b => decide (a.val ≤ b.val)
    serialize := fun _ => some []
    deserialize := fun _ => none
    serializeKey := testUuidJson }

/-- A spec whose deserializer accepts exactly the lines `"1"` and `"2"`. -/
def lineSpec : DocSpec TestDoc :=
  { pk := fun d => d.key
    intersects := fun _ _ => true
    serialize := fun d => some (List.replicate d.val 65)
    deserialize := fun s =>
      if s = [49] then some ⟨1, 0⟩ else if s = [50] then some ⟨2, 0⟩ else none
    serializeKey := testUuidJson }

/-- A spec that deserializes nothing (every stored file is unparsable). -/
def rejectSpec : DocSpec TestDoc :=
  { pk := fun d => d.key
    intersects := fun _ _ => true
    serialize := fun _ => some []
    deserialize := fun _ => none
    serializeKey := testUuidJson }

/-- A single-file collection holding one document under key 1. -/
def cOne : Collection TestDoc :=
  { documents := [(1, ⟨1, 4⟩)], backend := .file, maxByteLength := 128,
    byteLengthIncrement := 64, file := [], dir := [] }

/-- A single-file collection holding three documents under keys 1, 2, 3. -/
def cW6 : Collection TestDoc :=
  { documents := [(1, ⟨1, 4⟩), (2, ⟨2, 5⟩), (3, ⟨3, 6⟩)], backend := .file,
    maxByteLength := 128, byteLengthIncrement := 64, file := [], dir := [] }

/-- An environment whose truncation calls fail. -/
def badFsEnv : FsEnv :=
  { truncOk := false, writeOk := true, dirWriteOk := true, dirRemoveOk := true }

/-- A construction environment whose directory holds one parsable `.json` entry
(the line `"1"`, accepted by `lineSpec`). -/
def dirEnvGood : ConstructEnv :=
  { pathPresent := true, openOk := true, fileContents := [], readDirOk := true,
    dirEntries := [{ readOk := true, ext := some jsonExt, openOk := true,
                     content := [49] }] }

/-! ### Lemmas about the index model -/

theorem containsKey_eq_false_iff {T : Type} {m : Index T} {k : Nat} :
    containsKey m k = false ↔ ∀ e ∈ m, e.1 ≠ k := by
  simp [containsKey, List.any_eq_false]

theorem containsKey_eq_true_iff {T : Type} {m : Index T} {k : Nat} :
    containsKey m k = true ↔ ∃ e ∈ m, e.1 = k := by
  simp [containsKey, List.any_eq_true]

theorem containsKey_append {T : Type} {m₁ m₂ : Index T} {k : Nat} :
    containsKey (m₁ ++ m₂) k = (containsKey m₁ k || containsKey m₂ k) := by
  simp [containsKey, List.any_append]

theorem indexInsert_of_not_contains {T : Type} {m : Index T} {k : Nat} {v : T}
    (h : containsKey m k = false) : indexInsert m k v = m ++ [(k, v)] := by
  induction m with
  | nil => rfl
  | cons e rest ih =>
    rw [containsKey_eq_false_iff] at h
    have h1 : (e.1 == k) = false := by
      simp only [beq_eq_false_iff_ne]
      exact h e (List.mem_cons_self e rest)
    have h2 : containsKey rest k = false := by
      rw [containsKey_eq_false_iff]
      exact fun x hx => h x (List.mem_cons_of_mem e hx)
    simp [indexInsert, h1, ih h2]

theorem getIndexOf_eq_none {T : Type} {m : Index T} {k : Nat}
    (h : containsKey m k = false) : getIndexOf m k = none := by
  induction m with
  | nil => rfl
  | cons e rest ih =>
    rw [containsKey_eq_false_iff] at h
    have h1 : (e.1 == k) = false := by
      simp only [beq_eq_false_iff_ne]
      exact h e (List.mem_cons_self e rest)
    have h2 : containsKey rest k = false := by
      rw [containsKey_eq_false_iff]
      exact fun x hx => h x (List.mem_cons_of_mem e hx)
    simp [getIndexOf, h1, ih h2]

theorem getVal_indexInsert_of_ne {T : Type} {m : Index T} {k k' : Nat} {v : T}
    (hne : k' ≠ k) : getVal (indexInsert m k v) k' = getVal m k' := by
  induction m with
  | nil =>
    have hkk : (k == k') = false := by
      simp only [beq_eq_false_iff_ne]
      exact fun hc => hne hc.symm
    simp [indexInsert, getVal, List.find?, hkk]
  | cons e rest ih =>
    by_cases h1 : e.1 == k
    · have hkk : (k == k') = false := by
        simp only [beq_eq_false_iff_ne]
        exact fun hc => hne hc.symm
      have he : (e.1 == k') = false := by
        simp only [beq_eq_false_iff_ne]
        have : e.1 = k := beq_iff_eq.mp h1
        rw [this]
        exact fun hc => hne hc.symm
      simp [indexInsert, h1, getVal, List.find?, hkk, he]
    · simp only [Bool.not_eq_true] at h1
      by_cases h2 : e.1 == k'
      · simp [indexInsert, h1, getVal, List.find?, h2]
      · simp only [Bool.not_eq_true] at h2
        simpa [indexInsert, h1, getVal, List.find?, h2] using ih

theorem getVal_eraseKey_of_ne {T : Type} {m : Index T} {k k' : Nat}
    (hne : k' ≠ k) : getVal (eraseKey m k) k' = getVal m k' := by
  induction m with
  | nil => rfl
  | cons e rest ih =>
    by_cases h1 : e.1 == k
    · have he : (e.1 == k') = false := by
        simp only [beq_eq_false_iff_ne]
        have : e.1 = k := beq_iff_eq.mp h1
        rw [this]
        exact fun hc => hne hc.symm
      simp [eraseKey, List.eraseP_cons, h1, getVal, List.find?, he]
    · simp only [Bool.not_eq_true] at h1
      by_cases h2 : e.1 == k'
      · simp [eraseKey, List.eraseP_cons, h1, getVal, List.find?, h2]
      · simp only [Bool.not_eq_true] at h2
        simpa [eraseKey, List.eraseP_cons, h1, getVal, List.find?, h2] using ih

theorem eraseKey_eq_eraseIdx {T : Type} {m : Index T} {k : Nat} (hk : k < m.length)
    (hnd : (m.map Prod.fst).Nodup) :
    eraseKey m (m.get ⟨k, hk⟩).1 = m.eraseIdx k := by
  induction m generalizing k with
  | nil => cases hk
  | cons e rest ih =>
    cases k with
    | zero =>
      simp [eraseKey, List.eraseP_cons]
    | succ k' =>
      have hk' : k' < rest.length := Nat.lt_of_succ_lt_succ hk
      have hmem : (rest.get ⟨k', hk'⟩).1 ∈ rest.map Prod.fst :=
        List.mem_map_of_mem Prod.fst (List.get_mem rest k' hk')
      have hnd' : (rest.map Prod.fst).Nodup := (List.nodup_cons.mp hnd).2
      have hne : e.1 ≠ (rest.get ⟨k', hk'⟩).1 := by
        intro hc
        exact (List.nodup_cons.mp hnd).1 (hc ▸ hmem)
      have hbeq : (e.1 == (rest.get ⟨k', hk'⟩).1) = false := by
        simp only [beq_eq_false_iff_ne]
        exact hne
      show eraseKey (e :: rest) ((e :: rest).get ⟨k' + 1, hk⟩).1 = (e :: rest).eraseIdx (k' + 1)
      have hget : ((e :: rest).get ⟨k' + 1, hk⟩) = rest.get ⟨k', hk'⟩ := rfl
      rw [hget]
      simp only [eraseKey, List.eraseP_cons, hbeq, cond_false, List.eraseIdx_cons_succ]
      exact congrArg (e :: ·) (ih hk' hnd')

/-! ### Lemmas about the file model -/

theorem writeAt_at_end (f d : Bytes) : writeAt f d f.length = f ++ d := by
  simp only [writeAt, Nat.sub_self, List.replicate, List.append_nil, List.take_length]
  rw [List.drop_eq_nil_of_le (by omega)]
  simp

theorem paddedSlot_length (json : Bytes) (w : Nat) :
    (paddedSlot json w).length = json.length + (w - charCount json) + 1 := by
  simp [paddedSlot]
  omega

theorem paddedSlot_length_ascii {json : Bytes} {w : Nat}
    (h1 : charCount json = json.length) (h2 : json.length ≤ w) :
    (paddedSlot json w).length = w + 1 := by
  rw [paddedSlot_length, h1]
  omega

/-! ### The backend writes never touch the in-memory index -/

theorem writeNewDocumentToFile_documents {T : Type} (ds : DocSpec T) (env : FsEnv)
    (c : Collection T) (d : T) :
    (writeNewDocumentToFile ds env c d).1.documents = c.documents := by
  unfold writeNewDocumentToFile
  split
  · rfl
  · split
    · split
      · rfl
      · split <;> rfl
    · split <;> rfl

theorem writeUpdatedDocumentToFile_documents {T : Type} (ds : DocSpec T) (env : FsEnv)
    (c : Collection T) (d : T) :
    (writeUpdatedDocumentToFile ds env c d).1.documents = c.documents := by
  unfold writeUpdatedDocumentToFile
  split
  · rfl
  · split
    · split
      · rfl
      · split
        · rfl
        · split <;> rfl
    · split
      · rfl
      · split <;> rfl

theorem writeToDir_documents {T : Type} (ds : DocSpec T) (env : FsEnv)
    (c : Collection T) (d : T) :
    (writeToDir ds env c d).1.documents = c.documents := by
  unfold writeToDir
  split
  · rfl
  · split <;> rfl

theorem removeFromDir_documents {T : Type} (env : FsEnv) (c : Collection T) (pk : Nat) :
    (removeFromDir env c pk).1.documents = c.documents := by
  unfold removeFromDir
  split <;> rfl

/-! ### Branch structure of the facade operations -/

theorem insert_ok_spec {T : Type} {ds : DocSpec T} {env : FsEnv} {c : Collection T} {d : T}
    (h : (insert ds env c d).2 = .ok ()) :
    containsKey c.documents (ds.pk d) = false ∧
    c.documents.any (fun e => (ds.pk d != ds.pk e.2) && !ds.intersects d e.2) = false ∧
    (insert ds env c d).1.documents = indexInsert c.documents (ds.pk d) d := by
  revert h
  unfold insert
  split
  · intro h; cases h
  next hdup =>
    split
    · intro h; cases h
    next hscan =>
      split
      · split
        · intro h; cases h
        · intro _
          refine ⟨by simpa using hdup, by simpa using hscan, ?_⟩
          simp [writeToDir_documents]
      · split
        · intro h; cases h
        · intro _
          refine ⟨by simpa using hdup, by simpa using hscan, ?_⟩
          simp [writeNewDocumentToFile_documents]
      · intro _
        exact ⟨by simpa using hdup, by simpa using hscan, rfl⟩

theorem insert_error_spec {T : Type} {ds : DocSpec T} {env : FsEnv} {c : Collection T}
    {d : T} {e : DbError} (h : (insert ds env c d).2 = .error e) :
    (insert ds env c d).1.documents = c.documents ∧
    ((e = .duplicateKey ∨ e = .intersection) → insert ds env c d = (c, .error e)) := by
  revert h
  unfold insert
  split
  · intro h
    injection h with he
    subst he
    exact ⟨rfl, fun _ => rfl⟩
  · split
    · intro h
      injection h with he
      subst he
      exact ⟨rfl, fun _ => rfl⟩
    · split
      · split
        · intro h
          injection h with he
          subst he
          refine ⟨writeToDir_documents ds env c d, ?_⟩
          rintro (hc | hc) <;> cases hc
        · intro h; cases h
      · split
        · intro h
          injection h with he
          subst he
          refine ⟨writeNewDocumentToFile_documents ds env c d, ?_⟩
          rintro (hc | hc) <;> cases hc
        · intro h; cases h
      · intro h; cases h

theorem update_ok_spec {T : Type} {ds : DocSpec T} {env : FsEnv} {c : Collection T} {d : T}
    (h : (update ds env c d).2 = .ok ()) :
    c.documents.any (fun e => (ds.pk d != e.1) && !ds.intersects d e.2) = false ∧
    (update ds env c d).1.documents = indexInsert c.documents (ds.pk d) d := by
  revert h
  unfold update
  split
  · intro h; cases h
  next hscan =>
    split
    · split
      · intro h; cases h
      · intro _
        refine ⟨by simpa using hscan, ?_⟩
        simp [writeToDir_documents]
    · split
      · intro h; cases h
      · intro _
        refine ⟨by simpa using hscan, ?_⟩
        simp [writeUpdatedDocumentToFile_documents]
    · intro _
      exact ⟨by simpa using hscan, rfl⟩

theorem update_error_documents {T : Type} {ds : DocSpec T} {env : FsEnv} {c : Collection T}
    {d : T} {e : DbError} (h : (update ds env c d).2 = .error e) :
    (update ds env c d).1.documents = c.documents := by
  revert h
  unfold update
  split
  · intro _; rfl
  · split
    · split
      · intro _; exact writeToDir_documents ds env c d
      · intro h; cases h
    · split
      · intro _; exact writeUpdatedDocumentToFile_documents ds env c d
      · intro h; cases h
    · intro h; cases h

theorem writeUpdated_absent_not_ok {T : Type} {ds : DocSpec T} {env : FsEnv}
    {c : Collection T} {d : T}
    (habs : containsKey c.documents (ds.pk d) = false) :
    (writeUpdatedDocumentToFile ds env c d).2 ≠ .ok () := by
  have hidx : getIndexOf c.documents (ds.pk d) = none := getIndexOf_eq_none habs
  unfold writeUpdatedDocumentToFile
  split
  · intro h; cases h
  · split
    · split
      · intro h; cases h
      · split
        · intro h; cases h
        next idx heq => rw [hidx] at heq; cases heq
    · split
      · intro h; cases h
      next idx heq => rw [hidx] at heq; cases heq

theorem delete_absent_eq {T : Type} {ds : DocSpec T} {env : FsEnv} {c : Collection T}
    {pk : Nat} (habs : containsKey c.documents pk = false) :
    delete ds env c pk = (c, .error .keyNotFound) := by
  unfold delete
  rw [habs]
  rfl

theorem delete_present_documents {T : Type} {ds : DocSpec T} {env : FsEnv} {c : Collection T}
    {pk : Nat} (hpres : containsKey c.documents pk = true) :
    (delete ds env c pk).1.documents = eraseKey c.documents pk := by
  unfold delete
  rw [hpres]
  show (match c.backend with
    | Backend.dir => _
    | Backend.file => _
    | Backend.inMemory => _ : Collection T × Except DbError Unit).1.documents = _
  split
  · split
    · simp [removeFromDir_documents]
    · simp [removeFromDir_documents]
  · split
    · rfl
    · rfl
  · rfl

theorem delete_file_success {T : Type} {ds : DocSpec T} {env : FsEnv} {c : Collection T}
    {pk : Nat} {F : Bytes}
    (hb : c.backend = .file)
    (hpres : containsKey c.documents pk = true)
    (hrwf : rewriteFile ds env { c with documents := eraseKey c.documents pk } =
      (F, .ok ())) :
    delete ds env c pk =
      ({ c with documents := eraseKey c.documents pk, file := F }, .ok ()) := by
  unfold delete
  rw [hpres]
  show (match c.backend with
    | Backend.dir => _
    | Backend.file => _
    | Backend.inMemory => _ : Collection T × Except DbError Unit) = _
  split
  next hback => rw [hb] at hback; cases hback
  next hback =>
    show (match (rewriteFile ds env { c with documents := eraseKey c.documents pk }).2 with
      | Except.error _ => _
      | Except.ok _ => _ : Collection T × Except DbError Unit) = _
    rw [hrwf]
  next hback => rw [hb] at hback; cases hback

theorem delete_ok_documents {T : Type} {ds : DocSpec T} {env : FsEnv} {c : Collection T}
    {pk : Nat} (h : (delete ds env c pk).2 = .ok ()) :
    containsKey c.documents pk = true ∧
    (delete ds env c pk).1.documents = eraseKey c.documents pk := by
  rcases Bool.eq_false_or_eq_true (containsKey c.documents pk) with ht | hf
  · exact ⟨ht, delete_present_documents ht⟩
  · rw [delete_absent_eq hf] at h
    cases h

/-! ### The slot-growth arithmetic -/

theorem grow_formula_least (I L : Nat) (hI : 0 < I) :
    L < I * (L / I + 1) ∧ ∀ k : Nat, L < I * k → I * (L / I + 1) ≤ I * k := by
  have h1 : I * (L / I) + L % I = L := Nat.div_add_mod L I
  have h2 : L % I < I := Nat.mod_lt _ hI
  have h3 : I * (L / I + 1) = I * (L / I) + I := by ring
  refine ⟨by omega, ?_⟩
  intro k hk
  rcases Nat.lt_or_ge (L / I) k with h | h
  · have h4 : I * (L / I + 1) ≤ I * k := Nat.mul_le_mul_left I h
    omega
  · have h5 : I * k ≤ I * (L / I) := Nat.mul_le_mul_left I h
    omega

theorem writeNewDocumentToFile_max_of_grow {T : Type} {ds : DocSpec T} {env : FsEnv}
    {c : Collection T} {d : T} {json : Bytes}
    (hs : ds.serialize d = some json) (hg : c.maxByteLength < json.length) :
    (writeNewDocumentToFile ds env c d).1.maxByteLength =
      c.byteLengthIncrement * (json.length / c.byteLengthIncrement + 1) := by
  unfold writeNewDocumentToFile
  rw [hs]
  show ((if c.maxByteLength < json.length then _ else _ :
    Collection T × Except DbError Unit)).1.maxByteLength = _
  rw [if_pos hg]
  split
  · rfl
  · split <;> rfl

theorem writeUpdatedDocumentToFile_max_of_grow {T : Type} {ds : DocSpec T} {env : FsEnv}
    {c : Collection T} {d : T} {json : Bytes}
    (hs : ds.serialize d = some json) (hg : c.maxByteLength < json.length) :
    (writeUpdatedDocumentToFile ds env c d).1.maxByteLength =
      c.byteLengthIncrement * (json.length / c.byteLengthIncrement + 1) := by
  unfold writeUpdatedDocumentToFile
  rw [hs]
  show ((if c.maxByteLength < json.length then _ else _ :
    Collection T × Except DbError Unit)).1.maxByteLength = _
  rw [if_pos hg]
  split
  · rfl
  · split
    · rfl
    · split <;> rfl

/-! ### The rewrite loop on well-sized ASCII entries -/

theorem rewriteLoop_join {T : Type} (ds : DocSpec T) (w : Nat) :
    ∀ (l : Index T) (idx : Nat) (file : Bytes),
      (∀ e ∈ l, ∃ s, serializeEntry ds e = some s ∧ s.length ≤ w ∧ charCount s = s.length) →
      file.length = idx * (w + 1) →
      rewriteLoop ds allOk w l idx file =
        (file ++ (l.map (fun e => paddedSlot ((serializeEntry ds e).getD []) w)).flatten,
          .ok ()) := by
  intro l
  induction l with
  | nil =>
    intro idx file _ _
    simp [rewriteLoop]
  | cons e rest ih =>
    intro idx file hfit hlen
    obtain ⟨s, hs, hle, hascii⟩ := hfit e (List.mem_cons_self e rest)
    have hnot : ¬ (w < s.length) := by omega
    have hwrite : writeAt file (paddedSlot s w) (idx * (w + 1)) = file ++ paddedSlot s w := by
      rw [← hlen]
      exact writeAt_at_end file (paddedSlot s w)
    have hfit' : ∀ x ∈ rest, ∃ s, serializeEntry ds x = some s ∧
        s.length ≤ w ∧ charCount s = s.length :=
      fun x hx => hfit x (List.mem_cons_of_mem e hx)
    have hlen' : (writeAt file (paddedSlot s w) (idx * (w + 1))).length = (idx + 1) * (w + 1) := by
      rw [hwrite, List.length_append, paddedSlot_length_ascii hascii hle, hlen]
      ring
    simp only [rewriteLoop, hs, if_neg hnot]
    rw [if_pos (show allOk.writeOk = true from rfl)]
    rw [ih (idx + 1) _ hfit' hlen', hwrite]
    simp [hs, List.append_assoc]

/-! ### Indexing facts about `eraseIdx` and `indexInsert` -/

theorem getElem_eraseIdx_ge {α : Type} :
    ∀ (l : List α) (k j : Nat) (hj : j < (l.eraseIdx k).length) (hk : k ≤ j)
      (hj2 : j + 1 < l.length),
      (l.eraseIdx k).get ⟨j, hj⟩ = l.get ⟨j + 1, hj2⟩ := by
  intro l
  induction l with
  | nil =>
    intro k j hj _ _
    simp [List.eraseIdx] at hj
  | cons e rest ih =>
    intro k j hj hk hj2
    cases k with
    | zero => rfl
    | succ k' =>
      cases j with
      | zero => omega
      | succ j' =>
        have hj' : j' < (rest.eraseIdx k').length := by
          simpa [List.eraseIdx_cons_succ] using Nat.lt_of_succ_lt_succ (by simpa using hj)
        have hj2' : j' + 1 < rest.length := Nat.lt_of_succ_lt_succ hj2
        show (rest.eraseIdx k').get ⟨j', _⟩ = rest.get ⟨j' + 1, hj2'⟩
        exact ih k' j' hj' (Nat.le_of_succ_le_succ hk) hj2'

theorem indexInsert_eq_set {T : Type} :
    ∀ {m : Index T} {k i : Nat} {v : T},
      getIndexOf m k = some i → indexInsert m k v = m.set i (k, v) := by
  intro m
  induction m with
  | nil => intro k i v h; cases h
  | cons e rest ih =>
    intro k i v h
    cases hbe : (e.1 == k) with
    | true =>
      simp [getIndexOf, hbe] at h
      subst h
      simp [indexInsert, hbe]
    | false =>
      simp [getIndexOf, hbe] at h
      obtain ⟨i', hi', rfl⟩ := h
      simp [indexInsert, hbe, ih hi']

/-! ### The load loop -/

theorem loadFileLoop_spec {T : Type} (ds : DocSpec T) (bad : Bytes) (rest : List Bytes)
    (hbadU : utf8Valid bad = true)
    (hbad : ds.deserialize (trimBytes bad) = none) :
    ∀ {goods : List Bytes} {docs : List T},
      List.Forall₂ (fun g d => utf8Valid g = true ∧
        ds.deserialize (trimBytes g) = some d) goods docs →
      (docs.map ds.pk).Nodup →
      ∀ (acc : Index T), (∀ d ∈ docs, containsKey acc (ds.pk d) = false) →
      loadFileLoop ds (goods ++ bad :: rest) acc =
        some (acc ++ docs.map (fun d => (ds.pk d, d))) := by
  intro goods docs hf
  induction hf with
  | nil =>
    intro _ acc _
    simp [loadFileLoop, hbadU, hbad]
  | @cons g d gs ds' hgd hf ih =>
    intro hnd acc hfresh
    have hnotmem : ds.pk d ∉ ds'.map ds.pk := (List.nodup_cons.mp (by simpa using hnd)).1
    have hnd' : (ds'.map ds.pk).Nodup := (List.nodup_cons.mp (by simpa using hnd)).2
    have hstep : loadFileLoop ds ((g :: gs) ++ bad :: rest) acc =
        loadFileLoop ds (gs ++ bad :: rest) (indexInsert acc (ds.pk d) d) := by
      simp [loadFileLoop, hgd.1, hgd.2]
    rw [hstep, indexInsert_of_not_contains (hfresh d (List.mem_cons_self d ds'))]
    rw [ih hnd' (acc ++ [(ds.pk d, d)]) ?_]
    · simp
    · intro d' hd'
      rw [containsKey_append]
      rw [hfresh d' (List.mem_cons_of_mem d hd')]
      have hne : ds.pk d ≠ ds.pk d' := by
        intro hc
        exact hnotmem (hc ▸ List.mem_map_of_mem ds.pk hd')
      simp [containsKey, hne]

/-! ### The uniqueness invariant maintained by the facade -/

/-- The invariant the facade maintains on the index when the conflict check is
symmetric: keys label their documents, keys are unique, and every two entries
under distinct primary keys pass the conflict check. -/
def IndexInv {T : Type} (ds : DocSpec T) (m : Index T) : Prop :=
  (∀ e ∈ m, e.1 = ds.pk e.2) ∧ ((m.map Prod.fst).Nodup ∧
    (∀ p ∈ m, ∀ q ∈ m, ds.pk p.2 ≠ ds.pk q.2 → ds.intersects p.2 q.2 = true))

theorem mem_indexInsert_of_contains {T : Type} :
    ∀ {m : Index T} {k : Nat} {v : T} {p : Nat × T},
      (m.map Prod.fst).Nodup → containsKey m k = true →
      p ∈ indexInsert m k v → p = (k, v) ∨ (p ∈ m ∧ p.1 ≠ k) := by
  intro m
  induction m with
  | nil =>
    intro k v p _ hc
    simp [containsKey] at hc
  | cons e rest ih =>
    intro k v p hnd hc hp
    have hnd1 : e.1 ∉ rest.map Prod.fst := (List.nodup_cons.mp (by simpa using hnd)).1
    have hnd2 : (rest.map Prod.fst).Nodup := (List.nodup_cons.mp (by simpa using hnd)).2
    cases hbe : (e.1 == k) with
    | true =>
      have hek : e.1 = k := beq_iff_eq.mp hbe
      rw [indexInsert, hbe] at hp
      simp at hp
      rcases hp with hp | hp
      · exact Or.inl hp
      · refine Or.inr ⟨List.mem_cons_of_mem e hp, ?_⟩
        intro hpk
        exact hnd1 (hek ▸ hpk ▸ List.mem_map_of_mem Prod.fst hp)
    | false =>
      rw [indexInsert, hbe] at hp
      simp at hp
      rcases hp with hp | hp
      · refine Or.inr ⟨by simp [hp], ?_⟩
        rw [hp]
        exact beq_eq_false_iff_ne.mp hbe
      · have hcrest : containsKey rest k = true := by
          have := hc
          simp [containsKey, hbe] at this
          rw [containsKey_eq_true_iff]
          simpa using this
        rcases ih hnd2 hcrest hp with h | ⟨h1, h2⟩
        · exact Or.inl h
        · exact Or.inr ⟨List.mem_cons_of_mem e h1, h2⟩

theorem map_fst_indexInsert_of_contains {T : Type} :
    ∀ {m : Index T} {k : Nat} {v : T}, containsKey m k = true →
      (indexInsert m k v).map Prod.fst = m.map Prod.fst := by
  intro m
  induction m with
  | nil =>
    intro k v hc
    simp [containsKey] at hc
  | cons e rest ih =>
    intro k v hc
    cases hbe : (e.1 == k) with
    | true =>
      rw [indexInsert, hbe]
      simp [beq_iff_eq.mp hbe]
    | false =>
      have hcrest : containsKey rest k = true := by
        have := hc
        simp [containsKey, hbe] at this
        rw [containsKey_eq_true_iff]
        simpa using this
      rw [indexInsert, hbe]
      simp [ih hcrest]

theorem scan_false_insert {T : Type} {ds : DocSpec T} {m : Index T} {d : T}
    (h : m.any (fun e => (ds.pk d != ds.pk e.2) && !ds.intersects d e.2) = false) :
    ∀ e ∈ m, ds.pk d = ds.pk e.2 ∨ ds.intersects d e.2 = true := by
  intro e he
  rw [List.any_eq_false] at h
  have hh := h e he
  by_cases hpk : ds.pk d = ds.pk e.2
  · exact Or.inl hpk
  · right
    by_contra hint
    apply hh
    simp only [Bool.and_eq_true, bne_iff_ne, ne_eq, Bool.not_eq_true']
    exact ⟨hpk, by simpa using hint⟩

theorem scan_false_update {T : Type} {ds : DocSpec T} {m : Index T} {d : T}
    (h : m.any (fun e => (ds.pk d != e.1) && !ds.intersects d e.2) = false) :
    ∀ e ∈ m, ds.pk d = e.1 ∨ ds.intersects d e.2 = true := by
  intro e he
  rw [List.any_eq_false] at h
  have hh := h e he
  by_cases hpk : ds.pk d = e.1
  · exact Or.inl hpk
  · right
    by_contra hint
    apply hh
    simp only [Bool.and_eq_true, bne_iff_ne, ne_eq, Bool.not_eq_true']
    exact ⟨hpk, by simpa using hint⟩

theorem indexInv_append {T : Type} {ds : DocSpec T} {m : Index T} {d : T}
    (hsym : ∀ a b, ds.intersects a b = ds.intersects b a)
    (hinv : IndexInv ds m)
    (hfresh : containsKey m (ds.pk d) = false)
    (hscan : ∀ e ∈ m, ds.pk d = ds.pk e.2 ∨ ds.intersects d e.2 = true) :
    IndexInv ds (m ++ [(ds.pk d, d)]) := by
  obtain ⟨hlab, hnd, hpair⟩ := hinv
  have hnotmem : ds.pk d ∉ m.map Prod.fst := by
    intro hc
    obtain ⟨e, he, hek⟩ := List.mem_map.mp hc
    exact absurd hek (containsKey_eq_false_iff.mp hfresh e he)
  refine ⟨?_, ⟨?_, ?_⟩⟩
  · intro e he
    rcases List.mem_append.mp he with he | he
    · exact hlab e he
    · simp at he
      rw [he]
  · rw [List.map_append]
    refine List.Nodup.append hnd (by simp) ?_
    intro a ham hain
    simp at hain
    exact hnotmem (hain ▸ ham)
  · intro p hp q hq hne
    rcases List.mem_append.mp hp with hp | hp <;>
      rcases List.mem_append.mp hq with hq | hq
    · exact hpair p hp q hq hne
    · simp at hq
      rcases hscan p hp with hh | hh
      · rw [hq] at hne
        exact absurd hh.symm (by simpa using hne)
      · rw [hq]
        simp only []
        rw [hsym]
        exact hh
    · simp at hp
      rcases hscan q hq with hh | hh
      · rw [hp] at hne
        exact absurd hh (by simpa using hne)
      · rw [hp]
        exact hh
    · simp at hp hq
      exact absurd (by rw [hp, hq]) hne

theorem indexInv_replace {T : Type} {ds : DocSpec T} {m : Index T} {d : T}
    (hsym : ∀ a b, ds.intersects a b = ds.intersects b a)
    (hinv : IndexInv ds m)
    (hpres : containsKey m (ds.pk d) = true)
    (hscan : ∀ e ∈ m, ds.pk d = e.1 ∨ ds.intersects d e.2 = true) :
    IndexInv ds (indexInsert m (ds.pk d) d) := by
  obtain ⟨hlab, hnd, hpair⟩ := hinv
  refine ⟨?_, ⟨?_, ?_⟩⟩
  · intro e he
    rcases mem_indexInsert_of_contains hnd hpres he with he | ⟨he, _⟩
    · rw [he]
    · exact hlab e he
  · rw [map_fst_indexInsert_of_contains hpres]
    exact hnd
  · intro p hp q hq hne
    rcases mem_indexInsert_of_contains hnd hpres hp with hp | ⟨hp, hpk⟩ <;>
      rcases mem_indexInsert_of_contains hnd hpres hq with hq | ⟨hq, hqk⟩
    · exact absurd (by rw [hp, hq]) hne
    · rcases hscan q hq with hh | hh
      · exact absurd hh.symm hqk
      · rw [hp]
        exact hh
    · rcases hscan p hp with hh | hh
      · exact absurd hh.symm hpk
      · rw [hq]
        simp only []
        rw [hsym]
        exact hh
    · exact hpair p hp q hq hne

theorem indexInv_eraseKey {T : Type} {ds : DocSpec T} {m : Index T} {k : Nat}
    (hinv : IndexInv ds m) : IndexInv ds (eraseKey m k) := by
  obtain ⟨hlab, hnd, hpair⟩ := hinv
  have hsub : List.Sublist (eraseKey m k) m := List.eraseP_sublist m
  refine ⟨fun e he => hlab e (hsub.mem he), ⟨?_, ?_⟩⟩
  · exact List.Nodup.sublist (hsub.map Prod.fst) hnd
  · intro p hp q hq hne
    exact hpair p (hsub.mem hp) q (hsub.mem hq) hne

theorem reachable_indexInv {T : Type} {ds : DocSpec T}
    (hsym : ∀ a b, ds.intersects a b = ds.intersects b a) :
    ∀ {c : Collection T}, Reachable ds c → IndexInv ds c.documents := by
  intro c h
  induction h with
  | init b =>
    exact ⟨by simp [emptyCollection], ⟨by simp [emptyCollection], by simp [emptyCollection]⟩⟩
  | @insertStep c' env d hr hok ih =>
    obtain ⟨hfresh, hscan, hdocs⟩ := insert_ok_spec hok
    rw [hdocs, indexInsert_of_not_contains hfresh]
    exact indexInv_append hsym ih hfresh (scan_false_insert hscan)
  | @updateStep c' env d hr hok ih =>
    obtain ⟨hscan, hdocs⟩ := update_ok_spec hok
    rw [hdocs]
    rcases Bool.eq_false_or_eq_true (containsKey c'.documents (ds.pk d)) with hpres | hfresh
    · exact indexInv_replace hsym ih hpres (scan_false_update hscan)
    · rw [indexInsert_of_not_contains hfresh]
      refine indexInv_append hsym ih hfresh ?_
      intro e he
      rcases scan_false_update hscan e he with hh | hh
      · exact Or.inl (hh.trans (ih.1 e he))
      · exact Or.inr hh
  | @deleteStep c' env pk hr hok ih =>
    obtain ⟨_, hdocs⟩ := delete_ok_documents hok
    rw [hdocs]
    exact indexInv_eraseKey ih

/-! ### Success-path descriptions of the single-file operations -/

theorem insert_file_slot {T : Type} {ds : DocSpec T} {env : FsEnv} {c : Collection T}
    {d : T} {json : Bytes}
    (hb : c.backend = .file)
    (hdup : containsKey c.documents (ds.pk d) = false)
    (hscan : c.documents.any (fun e => (ds.pk d != ds.pk e.2) && !ds.intersects d e.2) = false)
    (hs : ds.serialize d = some json)
    (hfit : ¬ (c.maxByteLength < json.length))
    (hw : env.writeOk = true) :
    insert ds env c d =
      ({ c with
          documents := c.documents ++ [(ds.pk d, d)],
          file := writeAt c.file (paddedSlot json c.maxByteLength)
            (c.documents.length * (c.maxByteLength + 1)) }, .ok ()) := by
  simp [insert, writeNewDocumentToFile, hb, hdup, hscan, hs, hfit, hw,
    indexInsert_of_not_contains hdup]

theorem update_file_of_absent {T : Type} {ds : DocSpec T} {env : FsEnv} {c : Collection T}
    {d : T}
    (hb : c.backend = .file)
    (habs : containsKey c.documents (ds.pk d) = false) :
    (update ds env c d).2 ≠ .ok () ∧ (update ds env c d).1.documents = c.documents := by
  unfold update
  split
  · exact ⟨by simp, rfl⟩
  · split
    next hback => rw [hb] at hback; cases hback
    next hback =>
      split
      · exact ⟨by simp, writeUpdatedDocumentToFile_documents ds env c d⟩
      next u heq =>
        cases u
        exact absurd heq (writeUpdated_absent_not_ok habs)
    next hback => rw [hb] at hback; cases hback

theorem update_inMemory_of_absent {T : Type} {ds : DocSpec T} {env : FsEnv} {c : Collection T}
    {d : T}
    (hb : c.backend = .inMemory)
    (habs : containsKey c.documents (ds.pk d) = false)
    (hscan : c.documents.any (fun e => (ds.pk d != e.1) && !ds.intersects d e.2) = false) :
    update ds env c d = ({ c with documents := c.documents ++ [(ds.pk d, d)] }, .ok ()) := by
  simp [update, hb, hscan, indexInsert_of_not_contains habs]

theorem update_dir_of_absent {T : Type} {ds : DocSpec T} {env : FsEnv} {c : Collection T}
    {d : T} {json : Bytes}
    (hb : c.backend = .dir)
    (habs : containsKey c.documents (ds.pk d) = false)
    (hscan : c.documents.any (fun e => (ds.pk d != e.1) && !ds.intersects d e.2) = false)
    (hs : ds.serialize d = some json)
    (hw : env.dirWriteOk = true) :
    update ds env c d =
      ({ c with
          documents := c.documents ++ [(ds.pk d, d)],
          dir := indexInsert c.dir (ds.pk d) json }, .ok ()) := by
  simp [update, writeToDir, hb, hscan, hs, hw, indexInsert_of_not_contains habs]

/-! ### Totality of the loaders -/

theorem loadStructsFromDir_total {T : Type} (ds : DocSpec T) :
    ∀ (entries : List DirEntry) (acc : Index T),
      (∀ e ∈ entries, e.readOk = true → e.ext ≠ none) →
      (∀ e ∈ entries, e.readOk = true → e.ext = some jsonExt → e.openOk = true →
        ds.deserialize e.content ≠ none) →
      ∃ idx, loadStructsFromDir ds entries acc = some idx := by
  intro entries
  induction entries with
  | nil =>
    intro acc _ _
    exact ⟨acc, rfl⟩
  | cons e rest ih =>
    intro acc h1 h2
    have h1' : ∀ x ∈ rest, x.readOk = true → x.ext ≠ none :=
      fun x hx => h1 x (List.mem_cons_of_mem e hx)
    have h2' : ∀ x ∈ rest, x.readOk = true → x.ext = some jsonExt → x.openOk = true →
        ds.deserialize x.content ≠ none :=
      fun x hx => h2 x (List.mem_cons_of_mem e hx)
    cases hro : e.readOk with
    | false =>
      obtain ⟨idx, hidx⟩ := ih acc h1' h2'
      exact ⟨idx, by simp [loadStructsFromDir, hro, hidx]⟩
    | true =>
      cases hext : e.ext with
      | none => exact absurd hext (h1 e (List.mem_cons_self e rest) hro)
      | some x =>
        by_cases hx : x = jsonExt
        · subst hx
          cases hop : e.openOk with
          | false =>
            obtain ⟨idx, hidx⟩ := ih acc h1' h2'
            exact ⟨idx, by simp [loadStructsFromDir, hro, hext, hop, hidx]⟩
          | true =>
            cases hd : ds.deserialize e.content with
            | none =>
              exact absurd hd (h2 e (List.mem_cons_self e rest) hro hext hop)
            | some d =>
              obtain ⟨idx, hidx⟩ :=
                ih (indexInsert acc (ds.pk d) d) h1' h2'
              exact ⟨idx, by simp [loadStructsFromDir, hro, hext, hop, hd, hidx]⟩
        · obtain ⟨idx, hidx⟩ := ih acc h1' h2'
          exact ⟨idx, by simp [loadStructsFromDir, hro, hext, hx, hidx]⟩

theorem new_inMemory_total {T : Type} (ds : DocSpec T) (cenv : ConstructEnv) :
    Collection.new ds .inMemory cenv = some (emptyCollection .inMemory) := rfl

theorem loadFileLoop_total {T : Type} (ds : DocSpec T) :
    ∀ (lines : List Bytes) (acc : Index T),
      (∀ l ∈ lines, utf8Valid l = true) →
      ∃ idx, loadFileLoop ds lines acc = some idx := by
  intro lines
  induction lines with
  | nil =>
    intro acc _
    exact ⟨acc, rfl⟩
  | cons l rest ih =>
    intro acc h
    have hl : utf8Valid l = true := h l (List.mem_cons_self l rest)
    have h' : ∀ x ∈ rest, utf8Valid x = true := fun x hx => h x (List.mem_cons_of_mem l hx)
    cases hd : ds.deserialize (trimBytes l) with
    | none => exact ⟨acc, by simp [loadFileLoop, hl, hd]⟩
    | some d =>
      obtain ⟨idx, hidx⟩ := ih (indexInsert acc (ds.pk d) d) h'
      exact ⟨idx, by simp [loadFileLoop, hl, hd, hidx]⟩

theorem new_file_total {T : Type} (ds : DocSpec T) (cenv : ConstructEnv)
    (hutf8 : ∀ l ∈ splitLines cenv.fileContents, utf8Valid l = true) :
    ∃ c, Collection.new ds .file cenv = some c := by
  cases hp : cenv.pathPresent with
  | false => exact ⟨emptyCollection .file, by simp [Collection.new, hp]⟩
  | true =>
    cases ho : cenv.openOk with
    | false => exact ⟨emptyCollection .file, by simp [Collection.new, hp, ho]⟩
    | true =>
      obtain ⟨idx, hidx⟩ := loadFileLoop_total ds (splitLines cenv.fileContents) [] hutf8
      refine ⟨{ (emptyCollection .file : Collection T) with
          documents := idx, file := cenv.fileContents }, ?_⟩
      simp only [Collection.new, hp, ho, loadStructsFromFile, hidx]
      rfl

theorem new_dir_total {T : Type} (ds : DocSpec T) (cenv : ConstructEnv)
    (h1 : ∀ e ∈ cenv.dirEntries, e.readOk = true → e.ext ≠ none)
    (h2 : ∀ e ∈ cenv.dirEntries, e.readOk = true → e.ext = some jsonExt →
      e.openOk = true → ds.deserialize e.content ≠ none) :
    ∃ c, Collection.new ds .dir cenv = some c := by
  cases hp : cenv.pathPresent with
  | false => exact ⟨emptyCollection .dir, by simp [Collection.new, hp]⟩
  | true =>
    cases hr : cenv.readDirOk with
    | false => exact ⟨emptyCollection .dir, by simp [Collection.new, hp, hr]⟩
    | true =>
      obtain ⟨idx, hidx⟩ := loadStructsFromDir_total ds cenv.dirEntries [] h1 h2
      refine ⟨{ (emptyCollection .dir : Collection T) with documents := idx }, ?_⟩
      simp only [Collection.new, hp, hr, hidx]
      rfl

/-! ### Claim theorems -/

/-- C1 (amended): when an insert or update serializes a document whose byte
length `L` exceeds the current `max_byte_length`, the new value is
`increment * (L / increment + 1)` — the smallest multiple of the increment
STRICTLY GREATER than `L` (not the smallest multiple ≥ `L`: when `L` is an
exact multiple of the increment the code grows to `L + increment`, not `L`). -/
theorem growth_policy_strictly_greater_multiple {T : Type} (ds : DocSpec T) (env : FsEnv)
    (c : Collection T) (d : T) (json : Bytes)
    (hs : ds.serialize d = some json) (hg : c.maxByteLength < json.length) :
    (writeNewDocumentToFile ds env c d).1.maxByteLength =
      c.byteLengthIncrement * (json.length / c.byteLengthIncrement + 1) ∧
    (writeUpdatedDocumentToFile ds env c d).1.maxByteLength =
      c.byteLengthIncrement * (json.length / c.byteLengthIncrement + 1) ∧
    (0 < c.byteLengthIncrement →
      json.length < c.byteLengthIncrement * (json.length / c.byteLengthIncrement + 1) ∧
      ∀ m, json.length < c.byteLengthIncrement * m →
        c.byteLengthIncrement * (json.length / c.byteLengthIncrement + 1) ≤
          c.byteLengthIncrement * m) :=
  ⟨writeNewDocumentToFile_max_of_grow hs hg,
   writeUpdatedDocumentToFile_max_of_grow hs hg,
   fun hI => grow_formula_least c.byteLengthIncrement json.length hI⟩

set_option maxRecDepth 4000 in
/-- C1 counterexample: inserting a document whose serialization is exactly 192
bytes (an exact multiple of the increment 64) into a fresh single-file
collection grows `max_byte_length` to 256, while the claim's formula
`increment * ceil(length / increment)` yields 192. -/
theorem insert_growth_exact_multiple_counterexample :
    (insert asciiSpec allOk (emptyCollection .file) ⟨1, 192⟩).1.maxByteLength = 256 ∧
    64 * ((192 + 64 - 1) / 64) = 192 ∧
    ¬ ((insert asciiSpec allOk (emptyCollection .file) ⟨1, 192⟩).1.maxByteLength = 192) := by
  refine ⟨by decide, by decide, by decide⟩

/-- C2 (amended): a delete that fails the key-existence check returns
`KeyNotFound` with the collection completely unchanged; but any other delete
failure happens AFTER the entry was already removed — the index equals the
original with the entry erased, because `shift_remove` precedes the backend
call. -/
theorem delete_error_contract {T : Type} (ds : DocSpec T) (env : FsEnv)
    (c : Collection T) (pk : Nat) :
    (containsKey c.documents pk = false → delete ds env c pk = (c, .error .keyNotFound)) ∧
    ((delete ds env c pk).2 ≠ .ok () → containsKey c.documents pk = true →
      (delete ds env c pk).1.documents = eraseKey c.documents pk) :=
  ⟨fun h => delete_absent_eq h, fun _ h => delete_present_documents h⟩

/-- C2 counterexample: on a single-file collection holding one document, a
delete whose backend rewrite fails (truncation error) returns an error, yet
the deleted key is GONE from the in-memory index — the index did change. -/
theorem delete_backend_failure_counterexample :
    (delete asciiSpec
        { truncOk := false, writeOk := true, dirWriteOk := true, dirRemoveOk := true }
        { documents := [(1, ⟨1, 4⟩)], backend := .file, maxByteLength := 128,
          byteLengthIncrement := 64, file := [], dir := [] } 1).2 =
      .error .writeError ∧
    containsKey
      (delete asciiSpec
        { truncOk := false, writeOk := true, dirWriteOk := true, dirRemoveOk := true }
        { documents := [(1, ⟨1, 4⟩)], backend := .file, maxByteLength := 128,
          byteLengthIncrement := 64, file := [], dir := [] } 1).1.documents 1 = false := by
  refine ⟨by decide, by decide⟩

/-- C3: every failing insert leaves the index (and hence the document count)
unchanged, and a DuplicateKey or ConstraintViolation failure leaves the whole
collection state unchanged — no backend write happened; the index is written
only after a successful backend write. -/
theorem insert_failure_frame {T : Type} (ds : DocSpec T) (env : FsEnv)
    (c : Collection T) (d : T) (e : DbError)
    (h : (insert ds env c d).2 = .error e) :
    (insert ds env c d).1.documents = c.documents ∧
    (insert ds env c d).1.documents.length = c.documents.length ∧
    ((e = .duplicateKey ∨ e = .intersection) → insert ds env c d = (c, .error e)) := by
  obtain ⟨h1, h2⟩ := insert_error_spec h
  exact ⟨h1, by rw [h1], h2⟩

/-- C4 (amended): only the single-file backend rejects an update whose key is
absent (the row-index lookup fails, surfaced as "Error writing to DB") with
the index left unchanged; the in-memory and directory backends accept such an
update and APPEND the document as a new entry. -/
theorem update_absent_key_contract {T : Type} (ds : DocSpec T) (env : FsEnv)
    (c : Collection T) (d : T)
    (habs : containsKey c.documents (ds.pk d) = false) :
    (c.backend = .file →
      (update ds env c d).2 ≠ .ok () ∧ (update ds env c d).1.documents = c.documents) ∧
    (c.backend = .inMemory →
      c.documents.any (fun e => (ds.pk d != e.1) && !ds.intersects d e.2) = false →
      update ds env c d = ({ c with documents := c.documents ++ [(ds.pk d, d)] }, .ok ())) ∧
    (c.backend = .dir →
      c.documents.any (fun e => (ds.pk d != e.1) && !ds.intersects d e.2) = false →
      ∀ json, ds.serialize d = some json → env.dirWriteOk = true →
      update ds env c d =
        ({ c with
            documents := c.documents ++ [(ds.pk d, d)],
            dir := indexInsert c.dir (ds.pk d) json }, .ok ())) :=
  ⟨fun hb => update_file_of_absent hb habs,
   fun hb hscan => update_inMemory_of_absent hb habs hscan,
   fun hb hscan _ hs hw => update_dir_of_absent hb habs hscan hs hw⟩

/-- C4 counterexample: updating a document whose key is absent from an
in-memory collection SUCCEEDS and inserts it, instead of failing with
KeyNotFound and leaving the collection unchanged. -/
theorem update_absent_key_counterexample :
    (update asciiSpec allOk (emptyCollection .inMemory) ⟨5, 3⟩).2 = .ok () ∧
    containsKey (update asciiSpec allOk (emptyCollection .inMemory) ⟨5, 3⟩).1.documents 5 =
      true := by
  refine ⟨by decide, by decide⟩

/-- C5 (amended): a written slot is the serialized JSON followed by
`max_byte_length - charCount(JSON)` spaces and a newline — `format!` pads by
CHARACTER count.  Its byte length is `byteLen + (max - charCount) + 1`, which
equals `max + 1` exactly when the JSON is ASCII (charCount = byteLen ≤ max);
multibyte JSON yields a LONGER slot.  A no-growth insert writes exactly this
slot at the append offset. -/
theorem slot_layout_char_padding :
    (∀ (json : Bytes) (w : Nat),
      (paddedSlot json w).length = json.length + (w - charCount json) + 1) ∧
    (∀ (json : Bytes) (w : Nat), charCount json = json.length → json.length ≤ w →
      (paddedSlot json w).length = w + 1) ∧
    (∀ (T : Type) (ds : DocSpec T) (env : FsEnv) (c : Collection T) (d : T) (json : Bytes),
      c.backend = .file →
      containsKey c.documents (ds.pk d) = false →
      c.documents.any (fun e => (ds.pk d != ds.pk e.2) && !ds.intersects d e.2) = false →
      ds.serialize d = some json →
      ¬ (c.maxByteLength < json.length) →
      env.writeOk = true →
      insert ds env c d =
        ({ c with
            documents := c.documents ++ [(ds.pk d, d)],
            file := writeAt c.file (paddedSlot json c.maxByteLength)
              (c.documents.length * (c.maxByteLength + 1)) }, .ok ())) :=
  ⟨paddedSlot_length, fun _ _ h1 h2 => paddedSlot_length_ascii h1 h2,
   fun _ _ _ _ _ _ hb hdup hscan hs hfit hw => insert_file_slot hb hdup hscan hs hfit hw⟩

set_option maxRecDepth 4000 in
/-- C5 counterexample: a document whose JSON is the four UTF-8 bytes of a
quoted "é" (4 bytes, 3 characters) fits in `max_byte_length = 128`, yet the
slot the insert writes is 130 bytes, not the claimed 128 + 1 = 129. -/
theorem slot_multibyte_counterexample :
    (insert multibyteSpec allOk (emptyCollection .file) ⟨1, 0⟩).2 = .ok () ∧
    (insert multibyteSpec allOk (emptyCollection .file) ⟨1, 0⟩).1.file.length = 130 ∧
    ¬ ((insert multibyteSpec allOk (emptyCollection .file) ⟨1, 0⟩).1.file.length = 129) := by
  refine ⟨by decide, by decide, by decide⟩

/-- C6 (code bug): `rewrite_file` serializes the `(Uuid, document)` PAIR (its
loop variable is the `IndexMap` entry), whose JSON is 41 bytes longer than the
document's own.  Two documents of 120 ASCII bytes each insert fine at slot
size 128 without growth, but deleting the first key makes the rewrite of the
remaining entry fail with "Struct is to large" (the pair JSON is 161 > 128
bytes): the delete the claim says succeeds returns an error — with the entry
already removed from the index. -/
theorem delete_record_too_large_on_pair_serialization :
    (insert asciiSpec allOk (emptyCollection .file) ⟨1, 120⟩).2 = .ok () ∧
    (insert asciiSpec allOk
      (insert asciiSpec allOk (emptyCollection .file) ⟨1, 120⟩).1 ⟨2, 120⟩).2 = .ok () ∧
    ((serializeEntry asciiSpec (2, ⟨2, 120⟩)).getD []).length = 161 ∧
    (delete asciiSpec allOk (insert asciiSpec allOk
      (insert asciiSpec allOk (emptyCollection .file) ⟨1, 120⟩).1 ⟨2, 120⟩).1 1).2 =
      .error .writeError ∧
    containsKey (delete asciiSpec allOk (insert asciiSpec allOk
      (insert asciiSpec allOk (emptyCollection .file) ⟨1, 120⟩).1 ⟨2, 120⟩).1 1).1.documents
      1 = false := by
  refine ⟨by decide, by decide, by decide, by decide, by decide⟩

/-- Positive companion to the C6 analysis: when every index ENTRY's pair JSON
— which is what the rewrite actually serializes — fits the slot size and is
ASCII, deleting the document at slot `k` succeeds, the index compacts (slots
`k+1..n-1` move to `k..n-2`), `by_primary_key` is unchanged for undeleted
keys, and the rewritten file is the concatenation of the padded entry slots. -/
theorem delete_compaction_when_entries_fit {T : Type} (ds : DocSpec T) (c : Collection T)
    (k : Nat)
    (hk : k < c.documents.length)
    (hb : c.backend = .file)
    (hnd : (c.documents.map Prod.fst).Nodup)
    (hfit : ∀ e ∈ c.documents, ∃ s, serializeEntry ds e = some s ∧
      s.length ≤ c.maxByteLength ∧ charCount s = s.length) :
    (delete ds allOk c (c.documents.get ⟨k, hk⟩).1).2 = .ok () ∧
    (delete ds allOk c (c.documents.get ⟨k, hk⟩).1).1.documents = c.documents.eraseIdx k ∧
    (∀ j (hj : j < (c.documents.eraseIdx k).length) (hj2 : j + 1 < c.documents.length),
      k ≤ j → (c.documents.eraseIdx k).get ⟨j, hj⟩ = c.documents.get ⟨j + 1, hj2⟩) ∧
    (∀ key, key ≠ (c.documents.get ⟨k, hk⟩).1 →
      byPrimaryKey (delete ds allOk c (c.documents.get ⟨k, hk⟩).1).1 key =
        byPrimaryKey c key) ∧
    (delete ds allOk c (c.documents.get ⟨k, hk⟩).1).1.file =
      ((c.documents.eraseIdx k).map
        (fun e => paddedSlot ((serializeEntry ds e).getD []) c.maxByteLength)).flatten := by
  have hpres : containsKey c.documents (c.documents.get ⟨k, hk⟩).1 = true :=
    containsKey_eq_true_iff.mpr ⟨_, List.get_mem _ _ _, rfl⟩
  have herase : eraseKey c.documents (c.documents.get ⟨k, hk⟩).1 = c.documents.eraseIdx k :=
    eraseKey_eq_eraseIdx hk hnd
  have hfit' : ∀ e ∈ eraseKey c.documents (c.documents.get ⟨k, hk⟩).1,
      ∃ s, serializeEntry ds e = some s ∧
        s.length ≤ c.maxByteLength ∧ charCount s = s.length :=
    fun e he => hfit e ((List.eraseP_sublist _).mem he)
  have hrwf : rewriteFile ds allOk
      { c with documents := eraseKey c.documents (c.documents.get ⟨k, hk⟩).1 } =
      (((eraseKey c.documents (c.documents.get ⟨k, hk⟩).1).map
        (fun e => paddedSlot ((serializeEntry ds e).getD []) c.maxByteLength)).flatten,
        .ok ()) := by
    unfold rewriteFile
    rw [if_pos (show allOk.truncOk = true from rfl)]
    simpa using rewriteLoop_join ds c.maxByteLength
      (eraseKey c.documents (c.documents.get ⟨k, hk⟩).1) 0 [] hfit' (by simp)
  have hdel : delete ds allOk c (c.documents.get ⟨k, hk⟩).1 =
      ({ c with
          documents := eraseKey c.documents (c.documents.get ⟨k, hk⟩).1,
          file := ((eraseKey c.documents (c.documents.get ⟨k, hk⟩).1).map
            (fun e => paddedSlot ((serializeEntry ds e).getD []) c.maxByteLength)).flatten },
        .ok ()) :=
    delete_file_success hb hpres hrwf
  refine ⟨by rw [hdel], by rw [hdel]; exact herase,
    fun j hj hj2 hkj => getElem_eraseIdx_ge c.documents k j hj hkj hj2, ?_, ?_⟩
  · intro key hkey
    rw [hdel]
    show getVal (eraseKey c.documents (c.documents.get ⟨k, hk⟩).1) key =
      getVal c.documents key
    exact getVal_eraseKey_of_ne hkey
  · rw [hdel, herase]

/-- C7 (amended): the single-file loader splits the file into lines, trims and
deserializes each; it stops at the first UTF-8-readable line that is blank or
fails to deserialize, treating it as the end of data even when later lines
would parse, and fills the index in file order, slot `i` holding the `i`-th
loaded document.  But a line that is not valid UTF-8 PANICS (`line.unwrap()`)
rather than being treated as the end-of-data marker. -/
theorem load_stops_at_first_bad_line {T : Type} (ds : DocSpec T) (bytes : Bytes)
    (goods : List Bytes) (bad : Bytes) (rest : List Bytes) (docs : List T)
    (hsplit : splitLines bytes = goods ++ bad :: rest)
    (hparse : List.Forall₂ (fun g d => utf8Valid g = true ∧
      ds.deserialize (trimBytes g) = some d) goods docs)
    (hbadU : utf8Valid bad = true)
    (hbad : ds.deserialize (trimBytes bad) = none)
    (hnd : (docs.map ds.pk).Nodup) :
    loadStructsFromFile ds bytes = some (docs.map (fun d => (ds.pk d, d))) := by
  unfold loadStructsFromFile
  rw [hsplit]
  simpa using loadFileLoop_spec ds bad rest hbadU hbad hparse hnd [] (fun d _ => rfl)

/-- C7 counterexample: a file whose first line is the single byte 0xFF (not
valid UTF-8) makes the loader PANIC at `line.unwrap()` — modelled as `none`,
aborting construction — instead of the bad line acting as an end-of-data
marker, even though the next line would parse. -/
theorem load_panics_on_invalid_utf8_counterexample :
    loadStructsFromFile lineSpec [255, 10, 49, 10] = none ∧
    Collection.new lineSpec .file
      { pathPresent := true, openOk := true, fileContents := [255, 10, 49, 10],
        readDirOk := true, dirEntries := [] } = none := by
  refine ⟨rfl, rfl⟩

/-- C8 (amended): when the caller-supplied conflict check is SYMMETRIC, every
collection reachable by successful operations contains no two distinct-keyed
documents that conflict.  (For a non-symmetric check the claim fails: only
the written document is checked against the others, in one direction.) -/
theorem uniqueness_invariant_symmetric {T : Type} (ds : DocSpec T)
    (hsym : ∀ a b, ds.intersects a b = ds.intersects b a)
    (c : Collection T) (hr : Reachable ds c) :
    ∀ p ∈ c.documents, ∀ q ∈ c.documents,
      ds.pk p.2 ≠ ds.pk q.2 → ds.intersects p.2 q.2 = true :=
  (reachable_indexInv hsym hr).2.2

/-- C9 (amended): construction is total for the in-memory backend; for the
single-file backend, open/read failures degrade to an empty collection and
construction returns a collection provided every line of the file is valid
UTF-8 (a non-UTF-8 line panics at `line.unwrap()`); directory-backend
construction returns a collection provided every readable entry has an
extension and every opened `.json` entry deserializes — an undeserializable
`.json` file (or an extension-less entry) panics. -/
theorem construction_totality_conditions :
    (∀ (T : Type) (ds : DocSpec T) (cenv : ConstructEnv),
      Collection.new ds .inMemory cenv = some (emptyCollection .inMemory)) ∧
    (∀ (T : Type) (ds : DocSpec T) (cenv : ConstructEnv),
      (∀ l ∈ splitLines cenv.fileContents, utf8Valid l = true) →
      ∃ c, Collection.new ds .file cenv = some c) ∧
    (∀ (T : Type) (ds : DocSpec T) (cenv : ConstructEnv),
      (∀ e ∈ cenv.dirEntries, e.readOk = true → e.ext ≠ none) →
      (∀ e ∈ cenv.dirEntries, e.readOk = true → e.ext = some jsonExt →
        e.openOk = true → ds.deserialize e.content ≠ none) →
      ∃ c, Collection.new ds .dir cenv = some c) :=
  ⟨fun _ ds cenv => new_inMemory_total ds cenv,
   fun _ ds cenv hutf8 => new_file_total ds cenv hutf8,
   fun _ ds cenv h1 h2 => new_dir_total ds cenv h1 h2⟩

/-- C9 counterexample: a directory containing one readable, openable `.json`
entry whose contents do not deserialize makes construction PANIC
(`serde_json::from_reader(f).unwrap()`), modelled as `none`, instead of
returning a degraded collection. -/
theorem construction_panic_counterexample :
    Collection.new rejectSpec .dir
      { pathPresent := true, openOk := true, fileContents := [], readDirOk := true,
        dirEntries := [{ readOk := true, ext := some jsonExt, openOk := true,
                         content := [55] }] } = none := rfl

/-- C10: a successful insert appends the new entry at the end of the index,
and a successful update of a key at slot `i` replaces exactly that entry in
place; in both cases every other key's `by_primary_key` result is unchanged
(hence the pre-existing order is preserved). -/
theorem insert_update_frame {T : Type} (ds : DocSpec T) (env : FsEnv)
    (c : Collection T) (d : T) :
    ((insert ds env c d).2 = .ok () →
      (insert ds env c d).1.documents = c.documents ++ [(ds.pk d, d)] ∧
      ∀ k, k ≠ ds.pk d → byPrimaryKey (insert ds env c d).1 k = byPrimaryKey c k) ∧
    ((update ds env c d).2 = .ok () →
      (∀ i, getIndexOf c.documents (ds.pk d) = some i →
        (update ds env c d).1.documents = c.documents.set i (ds.pk d, d)) ∧
      ∀ k, k ≠ ds.pk d → byPrimaryKey (update ds env c d).1 k = byPrimaryKey c k) := by
  constructor
  · intro hok
    obtain ⟨hfresh, _, hdocs⟩ := insert_ok_spec hok
    refine ⟨by rw [hdocs, indexInsert_of_not_contains hfresh], ?_⟩
    intro k hk
    show getVal (insert ds env c d).1.documents k = getVal c.documents k
    rw [hdocs]
    exact getVal_indexInsert_of_ne hk
  · intro hok
    obtain ⟨_, hdocs⟩ := update_ok_spec hok
    refine ⟨?_, ?_⟩
    · intro i hi
      rw [hdocs, indexInsert_eq_set hi]
    · intro k hk
      show getVal (update ds env c d).1.documents k = getVal c.documents k
      rw [hdocs]
      exact getVal_indexInsert_of_ne hk

/-- C8 counterexample: with the NON-symmetric conflict check of `nonSymSpec`
(`a.intersects b` succeeds iff `a.val ≤ b.val`), the state reached by
inserting ⟨1,1⟩ and then ⟨2,0⟩ is reachable by successful operations (the
second insert only checked `⟨2,0⟩.intersects ⟨1,1⟩`), yet the stored pair
violates the claimed invariant: `⟨1,1⟩.intersects ⟨2,0⟩` reports a conflict. -/
theorem uniqueness_nonsymmetric_counterexample :
    Reachable nonSymSpec (insert nonSymSpec allOk
      (insert nonSymSpec allOk (emptyCollection .inMemory) ⟨1, 1⟩).1 ⟨2, 0⟩).1 ∧
    (1, (⟨1, 1⟩ : TestDoc)) ∈ (insert nonSymSpec allOk
      (insert nonSymSpec allOk (emptyCollection .inMemory) ⟨1, 1⟩).1 ⟨2, 0⟩).1.documents ∧
    (2, (⟨2, 0⟩ : TestDoc)) ∈ (insert nonSymSpec allOk
      (insert nonSymSpec allOk (emptyCollection .inMemory) ⟨1, 1⟩).1 ⟨2, 0⟩).1.documents ∧
    nonSymSpec.pk ⟨1, 1⟩ ≠ nonSymSpec.pk ⟨2, 0⟩ ∧
    nonSymSpec.intersects ⟨1, 1⟩ ⟨2, 0⟩ = false := by
  refine ⟨Reachable.insertStep allOk (⟨2, 0⟩ : TestDoc)
      (Reachable.insertStep allOk (⟨1, 1⟩ : TestDoc)
        (Reachable.init .inMemory) (by decide)) (by decide),
    by decide, by decide, by decide, rfl⟩

/-! ### Witnesses -/

/-- Witness for C1's theorem on a concrete input: a fresh single-file
collection grown by a 200-byte document ends with `max_byte_length = 256`. -/
theorem growth_policy_strictly_greater_multiple_witness :
    (writeNewDocumentToFile asciiSpec allOk (emptyCollection .file) ⟨1, 200⟩).1.maxByteLength =
      256 := by
  have h := growth_policy_strictly_greater_multiple asciiSpec allOk (emptyCollection .file)
    ⟨1, 200⟩ (List.replicate 200 65) rfl (by decide)
  rw [h.1]
  decide

/-- Witness for C2's theorem at concrete inputs: an absent-key delete returns
KeyNotFound unchanged, and a failing-backend delete has already emptied the
one-document index. -/
theorem delete_error_contract_witness :
    delete asciiSpec allOk (emptyCollection .inMemory) 7 =
      ((emptyCollection .inMemory : Collection TestDoc), .error .keyNotFound) ∧
    (delete asciiSpec badFsEnv cOne 1).1.documents = [] := by
  refine ⟨(delete_error_contract asciiSpec allOk (emptyCollection .inMemory) 7).1 rfl, ?_⟩
  exact (delete_error_contract asciiSpec badFsEnv cOne 1).2 (by decide) rfl

/-- Witness for C3's theorem: a duplicate-key insert into a one-document
collection fails and changes nothing. -/
theorem insert_failure_frame_witness :
    (insert asciiSpec allOk cOne ⟨1, 5⟩).1.documents = cOne.documents ∧
    insert asciiSpec allOk cOne ⟨1, 5⟩ = (cOne, .error .duplicateKey) := by
  have h := insert_failure_frame asciiSpec allOk cOne ⟨1, 5⟩ .duplicateKey (by decide)
  exact ⟨h.1, h.2.2 (Or.inl rfl)⟩

/-- Witness for C4's theorem: a single-file update of an absent key is
rejected with the index intact, an in-memory update of an absent key appends. -/
theorem update_absent_key_contract_witness :
    ((update asciiSpec allOk cOne ⟨9, 2⟩).2 ≠ .ok () ∧
      (update asciiSpec allOk cOne ⟨9, 2⟩).1.documents = cOne.documents) ∧
    update asciiSpec allOk (emptyCollection .inMemory) ⟨9, 2⟩ =
      ({ (emptyCollection .inMemory : Collection TestDoc) with
          documents := [(9, ⟨9, 2⟩)] }, .ok ()) := by
  refine ⟨(update_absent_key_contract asciiSpec allOk cOne ⟨9, 2⟩ (by decide)).1 rfl, ?_⟩
  exact (update_absent_key_contract asciiSpec allOk (emptyCollection .inMemory) ⟨9, 2⟩
    (by decide)).2.1 rfl (by decide)

/-- Witness for C5's theorem: the multibyte slot length formula, the ASCII
slot length, and a successful concrete insert. -/
theorem slot_layout_char_padding_witness :
    (paddedSlot [34, 195, 169, 34] 128).length = 4 + (128 - 3) + 1 ∧
    (paddedSlot [65, 65] 128).length = 129 ∧
    (insert asciiSpec allOk (emptyCollection .file) ⟨1, 4⟩).2 = .ok () := by
  refine ⟨slot_layout_char_padding.1 [34, 195, 169, 34] 128,
    slot_layout_char_padding.2.1 [65, 65] 128 (by decide) (by decide), ?_⟩
  have h3 := slot_layout_char_padding.2.2 TestDoc asciiSpec allOk (emptyCollection .file)
    ⟨1, 4⟩ (List.replicate 4 65) rfl (by decide) (by decide) rfl (by decide) rfl
  rw [h3]

/-- Concrete instantiation of `delete_compaction_when_entries_fit`: deleting
the middle document of a three-document single-file collection whose entry
JSONs all fit compacts the index and keeps the other keys. -/
theorem delete_compaction_when_entries_fit_instance :
    (delete asciiSpec allOk cW6 2).2 = .ok () ∧
    (delete asciiSpec allOk cW6 2).1.documents = [(1, ⟨1, 4⟩), (3, ⟨3, 6⟩)] ∧
    byPrimaryKey (delete asciiSpec allOk cW6 2).1 3 = some ⟨3, 6⟩ := by
  have hfit : ∀ e ∈ cW6.documents, ∃ s, serializeEntry asciiSpec e = some s ∧
      s.length ≤ cW6.maxByteLength ∧ charCount s = s.length := by
    intro e he
    simp only [cW6, List.mem_cons, List.not_mem_nil, or_false] at he
    rcases he with h | h | h <;> subst h <;> exact ⟨_, rfl, by decide, by decide⟩
  have h := delete_compaction_when_entries_fit asciiSpec cW6 1 (by decide) rfl
    (by decide) hfit
  exact ⟨h.1, h.2.1, (h.2.2.2.1 3 (by decide)).trans (by decide)⟩

/-- Witness for C7's theorem: the file `"1\n\n2\n"` (all lines valid UTF-8)
loads only the document from the first line; the blank second line stops
loading even though the third line would parse. -/
theorem load_stops_at_first_bad_line_witness :
    loadStructsFromFile lineSpec [49, 10, 10, 50, 10] = some [(1, ⟨1, 0⟩)] :=
  load_stops_at_first_bad_line lineSpec [49, 10, 10, 50, 10] [[49]] [] [[50]] [⟨1, 0⟩]
    (by decide) (List.Forall₂.cons ⟨rfl, rfl⟩ List.Forall₂.nil) rfl rfl (by decide)

/-- Witness for C8's theorem: with the (trivially symmetric) conflict check of
`asciiSpec`, the two documents of a reachable two-document collection pass
the pairwise check. -/
theorem uniqueness_invariant_symmetric_witness :
    asciiSpec.intersects (⟨1, 1⟩ : TestDoc) ⟨2, 2⟩ = true := by
  have h := uniqueness_invariant_symmetric asciiSpec (fun _ _ => rfl) _
    (Reachable.insertStep allOk (⟨2, 2⟩ : TestDoc)
      (Reachable.insertStep allOk (⟨1, 1⟩ : TestDoc)
        (Reachable.init .inMemory) (by decide)) (by decide))
  exact h (1, ⟨1, 1⟩) (by decide) (2, ⟨2, 2⟩) (by decide) (by decide)

/-- Witness for C9's theorem: construction returns a collection for all three
backends on concrete environments, including a directory whose single entry
deserializes. -/
theorem construction_totality_conditions_witness :
    Collection.new asciiSpec .inMemory dirEnvGood =
      some (emptyCollection .inMemory) ∧
    (Collection.new asciiSpec .file dirEnvGood).isSome = true ∧
    (Collection.new lineSpec .dir dirEnvGood).isSome = true := by
  refine ⟨construction_totality_conditions.1 TestDoc asciiSpec dirEnvGood, ?_, ?_⟩
  · obtain ⟨c', hc'⟩ := construction_totality_conditions.2.1 TestDoc asciiSpec dirEnvGood
      (by decide)
    rw [hc']
    rfl
  · obtain ⟨c', hc'⟩ := construction_totality_conditions.2.2 TestDoc lineSpec dirEnvGood
      (by decide) (by decide)
    rw [hc']
    rfl

/-- Witness for C10's theorem: inserting key 2 appends it, updating key 1
replaces it in place, and the other keys' lookups are untouched. -/
theorem insert_update_frame_witness :
    (insert asciiSpec allOk cOne ⟨2, 3⟩).1.documents = [(1, ⟨1, 4⟩), (2, ⟨2, 3⟩)] ∧
    byPrimaryKey (insert asciiSpec allOk cOne ⟨2, 3⟩).1 1 = byPrimaryKey cOne 1 ∧
    (update asciiSpec allOk cOne ⟨1, 9⟩).1.documents = [(1, ⟨1, 9⟩)] ∧
    byPrimaryKey (update asciiSpec allOk cOne ⟨1, 9⟩).1 5 = byPrimaryKey cOne 5 := by
  have h1 := (insert_update_frame asciiSpec allOk cOne ⟨2, 3⟩).1 (by decide)
  have h2 := (insert_update_frame asciiSpec allOk cOne ⟨1, 9⟩).2 (by decide)
  exact ⟨h1.1, h1.2 1 (by decide), h2.1 0 (by decide), h2.2 5 (by decide)⟩

end Struvedb
